import Mathlib

/-!
Verification development for the static-blog build script `gen-rss.js`.

The script is a linear pipeline: scan a directory tree for `.mdx` files,
compile each document (external toolchain) into a module (with an optional
`meta` object) plus a structural tree, extract a `PostRecord` per document,
filter out future-dated records, sort descending by date, and write two
artifacts (a generated listing module and an RSS feed).

JavaScript runtime values are embedded as follows:
* a JS `Date` is its time value: `Option Int` (milliseconds since epoch;
  `none` is the Invalid Date sentinel, whose time value is `NaN`);
* `undefined`-or-present string fields are `Option String`;
* string truthiness: `undefined` and `""` are falsy, all other strings truthy;
* code that can throw a `TypeError` returns `Except JsError _`.
-/

deriving instance DecidableEq for Except

/-- A thrown JS runtime error (the script never catches one, so any such
error aborts the run). -/
inductive JsError where
  | typeError : JsError
deriving DecidableEq

/-- The normalized post record built by `readPostMetadata` (object literal at
lines 84-90 of `gen-rss.js`), with fields in source insertion order. -/
structure PostRecord where
  filePath : String
  urlPath : String
  title : String
  date : Option Int
  description : String
deriving DecidableEq

/-- JS `<=` on two `Date` values: comparison of time values, false whenever
either side is Invalid (`NaN <= x` and `x <= NaN` are false in JS). -/
def jsDateLe : Option Int → Option Int → Bool
  | some a, some b => decide (a ≤ b)
  | _, _ => false

/-- The comparator `function(a, b){return b.date - a.date}` (line 99):
JS number subtraction of the two time values; `none` is `NaN`. -/
def jsComparator (a b : PostRecord) : Option Int :=
  match b.date, a.date with
  | some x, some y => some (x - y)
  | _, _ => none

/-- `sortLe a b` holds when the sort may place `a` no later than `b`:
comparator result `<= 0`, where ECMAScript `SortCompare` treats a `NaN`
comparator result as `+0` (a tie). -/
def sortLe (a b : PostRecord) : Bool :=
  match jsComparator a b with
  | some v => decide (v ≤ 0)
  | none => true

/-- Stable insertion of `p` after every already-placed record `q` with
`sortLe q p` (ties keep the earlier record first). -/
def insertPost (p : PostRecord) : List PostRecord → List PostRecord
  | [] => [p]
  | q :: rest => if sortLe q p then q :: insertPost p rest else p :: q :: rest

/-- `posts.sort(function(a, b){return b.date - a.date})` (line 99).
ECMAScript requires `Array.prototype.sort` to be stable; it is modelled as a
stable insertion sort with respect to the comparator. -/
def sortPosts (l : List PostRecord) : List PostRecord :=
  l.foldl (fun acc p => insertPost p acc) []

/-- `.filter(function(post){return post.date <= now})` (line 98). -/
def filterPosts (posts : List PostRecord) (now : Int) : List PostRecord :=
  posts.filter (fun p => jsDateLe p.date (some now))

/-- The assembly step of `main` (lines 96-99): keep records dated at or
before `now`, then sort descending by date (stably). -/
def assemble (posts : List PostRecord) (now : Int) : List PostRecord :=
  sortPosts (filterPosts posts now)

example : jsDateLe (some 3) (some 3) = true := by decide
example : jsDateLe none (some 3) = false := by decide
example :
    assemble
      [⟨"a", "a", "a", some 1, "a"⟩, ⟨"b", "b", "b", some 5, "b"⟩,
       ⟨"c", "c", "c", some 9, "c"⟩, ⟨"d", "d", "d", some 5, "d"⟩] 5 =
      [⟨"b", "b", "b", some 5, "b"⟩, ⟨"d", "d", "d", some 5, "d"⟩,
       ⟨"a", "a", "a", some 1, "a"⟩] := by decide

/-! ## The compiled document: `meta` object and structural tree -/

/-- The optional `meta` object exported by a compiled document: string
fields `title`, `description` and `date`, each possibly absent. -/
structure Meta where
  title : Option String
  description : Option String
  date : Option String
deriving DecidableEq

/-- An inline node of the structural tree (a child of a block); only its
plain-text `value` is consulted by the script. -/
structure Inline where
  value : String
deriving DecidableEq

/-- A top-level block of the structural tree: a `type` tag (e.g. "heading",
"paragraph"), a heading `depth`, and its inline children. -/
structure Block where
  type : String
  depth : Nat
  children : List Inline
deriving DecidableEq

/-- A compiled document: the module's optional `meta` export plus the
structural tree's top-level children. -/
structure Doc where
  meta : Option Meta
  children : List Block
deriving DecidableEq

/-- Fallback title (lines 70-74): `ast.children.filter(heading ∧ depth 1)[0]
.children[0].value`; indexing `undefined` throws a `TypeError` when there is
no such heading or it has no children. -/
def titleFromAst (doc : Doc) : Except JsError String :=
  match doc.children.filter (fun x => x.type == "heading" && x.depth == 1) with
  | [] => .error .typeError
  | b :: _ =>
    match b.children with
    | [] => .error .typeError
    | i :: _ => .ok i.value

/-- Fallback description (lines 80-82): first block whose `type` is
"paragraph", same indexing behaviour. -/
def descriptionFromAst (doc : Doc) : Except JsError String :=
  match doc.children.filter (fun x => x.type == "paragraph") with
  | [] => .error .typeError
  | b :: _ =>
    match b.children with
    | [] => .error .typeError
    | i :: _ => .ok i.value

/-- `(meta && meta.title) ? meta.title : <ast fallback>` (lines 68-74):
the meta title is used only when it is truthy (present and non-empty). -/
def extractTitle (doc : Doc) : Except JsError String :=
  match doc.meta with
  | some m =>
    match m.title with
    | some t => if t = "" then titleFromAst doc else .ok t
    | none => titleFromAst doc
  | none => titleFromAst doc

/-- `(meta && meta.description) ? meta.description : <ast fallback>`
(lines 77-82). -/
def extractDescription (doc : Doc) : Except JsError String :=
  match doc.meta with
  | some m =>
    match m.description with
    | some d => if d = "" then descriptionFromAst doc else .ok d
    | none => descriptionFromAst doc
  | none => descriptionFromAst doc

/-- `(meta && new Date(meta.date)) || new Date()` (line 88).  `parse` is the
external JS date-string parser (`none` for an unparseable string).  A `Date`
object is always truthy — even Invalid Date — so when `meta` exists the
wall-clock default is never taken; `new Date(undefined)` is Invalid Date. -/
def dateOf (parse : String → Option Int) (doc : Doc) (wall : Int) : Option Int :=
  match doc.meta with
  | some m =>
    match m.date with
    | some s => parse s
    | none => none
  | none => some wall

/-! ## `urlPath` (line 86) -/

/-- `.replace(/\\/, '/')`: the regex is not global, so only the first
backslash is replaced. -/
def replaceFirstBackslash : List Char → List Char
  | [] => []
  | c :: cs => if c = '\\' then '/' :: cs else c :: replaceFirstBackslash cs

/-- `.replace(/^pages/, '')`: strip a leading literal `pages`. -/
def stripPagesRoot (cs : List Char) : List Char :=
  match cs with
  | 'p' :: 'a' :: 'g' :: 'e' :: 's' :: rest => rest
  | _ => cs

/-- `.replace(/\.mdx?$/, '')`: strip a trailing `.mdx` or `.md`. -/
def dropMdExt (cs : List Char) : List Char :=
  if cs.reverse.take 4 = ['x', 'd', 'm', '.'] then cs.take (cs.length - 4)
  else if cs.reverse.take 3 = ['d', 'm', '.'] then cs.take (cs.length - 3)
  else cs

/-- The whole `urlPath` transform of line 86. -/
def urlPath (s : String) : String :=
  ⟨dropMdExt (stripPagesRoot (replaceFirstBackslash s.data))⟩

/-- `readPostMetadata` (lines 65-91), for an already-compiled document:
title extraction runs first, then description, then the record literal is
built; `wall` is the wall-clock reading taken by `new Date()` at line 88. -/
def readPostMetadata (parse : String → Option Int) (wall : Int)
    (postPath : String) (doc : Doc) : Except JsError PostRecord :=
  match extractTitle doc with
  | .error e => .error e
  | .ok title =>
    match extractDescription doc with
    | .error e => .error e
    | .ok description =>
      .ok { filePath := postPath
            urlPath := urlPath postPath
            title := title
            date := dateOf parse doc wall
            description := description }

example : urlPath "pages/posts/a/b.mdx" = "/posts/a/b" := by decide
example : urlPath "pages\\a\\b.md" = "/a\\b" := by decide
example :
    extractTitle ⟨some ⟨some "", none, none⟩, [⟨"heading", 1, [⟨"H"⟩]⟩]⟩ = .ok "H" := by
  decide

/-! ## `scanDir` (lines 45-63) -/

/-- JS string `<=` - lexicographic comparison by code unit (all strings in
this program are ASCII, so code-unit order is code-point order). -/
def charListLe : List Char → List Char → Bool
  | [], _ => true
  | _ :: _, [] => false
  | a :: as, b :: bs =>
    if a.toNat < b.toNat then true
    else if a.toNat = b.toNat then charListLe as bs
    else false

/-- JS default sort order on strings. -/
def strLe (a b : String) : Bool :=
  charListLe a.data b.data

/-- JS `String.prototype.endsWith`: exact, case-sensitive suffix match. -/
def strEndsWith (s p : String) : Bool :=
  s.data.reverse.take p.data.length == p.data.reverse

/-- One entry of a directory: a plain file or a subdirectory with its own
entries (this models the file-system tree that `fs.readdirSync` and
`fs.statSync` expose to the scanner). -/
inductive FsEntry where
  | file (name : String) : FsEntry
  | dir (name : String) (entries : List FsEntry) : FsEntry

/-- The entry's file name, as listed by `fs.readdirSync`. -/
def entryName : FsEntry → String
  | .file n => n
  | .dir n _ => n

/-- `path.join(dirPath, filename)` for POSIX-style relative paths. -/
def pjoin (dirPath filename : String) : String :=
  dirPath ++ "/" ++ filename

/-- `filenames.sort()` (line 49): default JS sort compares names as strings;
a directory has one entry per name, so this is sorting entries by name. -/
def sortEntries (es : List FsEntry) : List FsEntry :=
  es.mergeSort (fun a b => strLe (entryName a) (entryName b))

/-- The body of `scan` (lines 47-60) applied to an already name-sorted entry
list of the directory at `dirPath`: a file is pushed when its joined path
ends with `ext`; a directory is recursed into after sorting its entries. -/
def scanEntries (ext : String) : String → List FsEntry → List String
  | _, [] => []
  | dirPath, .file n :: es =>
    (if strEndsWith (pjoin dirPath n) ext then [pjoin dirPath n] else []) ++
      scanEntries ext dirPath es
  | dirPath, .dir n sub :: es =>
    scanEntries ext (pjoin dirPath n) (sortEntries sub) ++ scanEntries ext dirPath es
termination_by _ es => sizeOf es
decreasing_by
  · simp only [List.cons.sizeOf_spec]
    omega
  · have h := List.Perm.sizeOf_eq_sizeOf
      (List.mergeSort_perm sub (fun a b => strLe (entryName a) (entryName b)))
    simp only [sortEntries, h, List.cons.sizeOf_spec, FsEntry.dir.sizeOf_spec]
    omega
  · simp only [List.cons.sizeOf_spec]
    omega

/-- `scanDir(dirPath, extension)` (lines 45-63) on the modelled tree whose
root directory holds `entries`. -/
def scanDir (dirPath : String) (entries : List FsEntry) (ext : String) : List String :=
  scanEntries ext dirPath (sortEntries entries)

/-- Spec-side enumeration: every file path of the tree, visited depth-first
with each directory's entries in sorted name order, with no suffix filter.
Used only to state what `scanDir` selects. -/
def filesDepthFirst : String → List FsEntry → List String
  | _, [] => []
  | dirPath, .file n :: es => pjoin dirPath n :: filesDepthFirst dirPath es
  | dirPath, .dir n sub :: es =>
    filesDepthFirst (pjoin dirPath n) (sortEntries sub) ++ filesDepthFirst dirPath es
termination_by _ es => sizeOf es
decreasing_by
  · simp only [List.cons.sizeOf_spec]
    omega
  · have h := List.Perm.sizeOf_eq_sizeOf
      (List.mergeSort_perm sub (fun a b => strLe (entryName a) (entryName b)))
    simp only [sortEntries, h, List.cons.sizeOf_spec, FsEntry.dir.sizeOf_spec]
    omega
  · simp only [List.cons.sizeOf_spec]
    omega


/-! ## Date formatting (models of the JS `Date` built-ins used when
serializing: `toJSON`/`toISOString` for the listing, RFC-822 for the feed) -/

/-- A UTC civil time split out of a millisecond timestamp. -/
structure CivilTime where
  year : Int
  month : Nat
  day : Nat
  hour : Nat
  minute : Nat
  second : Nat
  millis : Nat
deriving DecidableEq

/-- Gregorian civil date/time of the UTC millisecond timestamp `t`
(proleptic Gregorian calendar, the algorithm used by every JS engine). -/
def civilOfMillis (t : Int) : CivilTime :=
  let days := t.fdiv 86400000
  let msOfDay := (t.emod 86400000).toNat
  let z := days + 719468
  let era := z.fdiv 146097
  let doe := (z - era * 146097).toNat
  let yoe := (doe - doe / 1460 + doe / 36524 - doe / 146096) / 365
  let y := era * 400 + yoe
  let doy := doe - (365 * yoe + yoe / 4 - yoe / 100)
  let mp := (5 * doy + 2) / 153
  let d := doy - (153 * mp + 2) / 5 + 1
  let m := if mp < 10 then mp + 3 else mp - 9
  { year := if m ≤ 2 then y + 1 else y
    month := m
    day := d
    hour := msOfDay / 3600000
    minute := msOfDay % 3600000 / 60000
    second := msOfDay % 60000 / 1000
    millis := msOfDay % 1000 }

/-- Decimal rendering of `n` left-padded with zeroes to width `w`. -/
def padNum (w : Nat) (n : Nat) : String :=
  let s := toString n
  ⟨List.replicate (w - s.length) '0'⟩ ++ s

/-- The year field of an ISO-8601 date: four digits in 0..9999, otherwise
the JS expanded six-digit form with an explicit sign. -/
def isoYear (y : Int) : String :=
  if y < 0 then "-" ++ padNum 6 (-y).toNat
  else if y ≤ 9999 then padNum 4 y.toNat
  else "+" ++ padNum 6 y.toNat

/-- `Date.prototype.toISOString` on a valid date: the UTC ISO-8601 string
with millisecond precision. -/
def isoString (t : Int) : String :=
  let c := civilOfMillis t
  isoYear c.year ++ "-" ++ padNum 2 c.month ++ "-" ++ padNum 2 c.day ++ "T" ++
    padNum 2 c.hour ++ ":" ++ padNum 2 c.minute ++ ":" ++ padNum 2 c.second ++
    "." ++ padNum 3 c.millis ++ "Z"

/-- Day of week of the UTC timestamp `t`, `0` = Sunday (the epoch day was a
Thursday). -/
def weekdayOfMillis (t : Int) : Nat :=
  ((t.fdiv 86400000 + 4).emod 7).toNat

/-- An RFC-822 / RFC-1123 date line such as `Sun, 16 Feb 2020 08:27:21 GMT`,
as used for RSS `pubDate`; Invalid Date renders as its JS string form. -/
def rfc822String : Option Int → String
  | none => "Invalid Date"
  | some t =>
    let c := civilOfMillis t
    (["Sun", "Mon", "Tue", "Wed", "Thu", "Fri", "Sat"].getD (weekdayOfMillis t) "") ++
      ", " ++ padNum 2 c.day ++ " " ++
      (["Jan", "Feb", "Mar", "Apr", "May", "Jun", "Jul", "Aug", "Sep", "Oct",
        "Nov", "Dec"].getD (c.month - 1) "") ++
      " " ++ padNum 4 c.year.toNat ++ " " ++ padNum 2 c.hour ++ ":" ++
      padNum 2 c.minute ++ ":" ++ padNum 2 c.second ++ " GMT"

example : isoString 0 = "1970-01-01T00:00:00.000Z" := by decide
example : isoString 1581841641579 = "2020-02-16T08:27:21.579Z" := by decide
example : rfc822String (some 1581841641579) = "Sun, 16 Feb 2020 08:27:21 GMT" := by decide

/-! ## The listing artifact (lines 101-105)

`JSON.stringify(posts, null, 2)` followed by `JSON.parse` is the identity on
JSON-representable data, so the round-trip claims are settled on a JSON
value tree; the byte-level printer below is used for the artifact text. -/

/-- A JSON value as produced by `JSON.stringify`/`JSON.parse` for this
program (no booleans or nested numbers are ever serialized here; a `Date`
field serializes through `toJSON`). -/
inductive Json where
  | str : String → Json
  | num : Int → Json
  | null : Json
  | arr : List Json → Json
  | obj : List (String × Json) → Json

/-- `JSON.stringify` of one record's `date` field: `Date.prototype.toJSON`
returns the ISO string for a valid date and `null` for an Invalid Date. -/
def dateToJson : Option Int → Json
  | some t => .str (isoString t)
  | none => .null

/-- The JSON value `JSON.stringify` produces for one record: the five
fields in the record's insertion order, strings kept as strings, the date
through `dateToJson`. -/
def serializePost (p : PostRecord) : Json :=
  .obj [("filePath", .str p.filePath), ("urlPath", .str p.urlPath),
        ("title", .str p.title), ("date", dateToJson p.date),
        ("description", .str p.description)]

/-- The default-exported array of the generated listing module, as data. -/
def listingJson (posts : List PostRecord) : Json :=
  .arr (posts.map serializePost)

/-- First field of a JSON object named `k`, as `JSON.parse` exposes it. -/
def jsonField (k : String) : List (String × Json) → Option Json
  | [] => none
  | (k2, v) :: rest => if k2 = k then some v else jsonField k rest

/-- A re-parsed record: what a consumer reading the listing artifact back as
plain data sees.  The four string fields come back as strings; the `date`
field comes back as whatever JSON value was written. -/
structure ParsedPost where
  filePath : String
  urlPath : String
  title : String
  date : Json
  description : String

/-- Reading one record back out of the parsed listing data. -/
def parsePost : Json → Option ParsedPost
  | .obj fs =>
    match jsonField "filePath" fs, jsonField "urlPath" fs, jsonField "title" fs,
        jsonField "date" fs, jsonField "description" fs with
    | some (.str f), some (.str u), some (.str t), some dj, some (.str d) =>
      some ⟨f, u, t, dj, d⟩
    | _, _, _, _, _ => none
  | _ => none

/-- Reading the whole listing back as data. -/
def parseListing : Json → Option (List ParsedPost)
  | .arr xs => xs.mapM parsePost
  | _ => none

/-- The record viewed directly as plain structured data, the reference point
of the spec's round-trip property ("a record set equal field-for-field"):
same five fields, the date being the record's own date value (its timestamp,
or `null` when invalid) rather than some encoding of it. -/
def recordAsData (p : PostRecord) : Json :=
  .obj [("filePath", .str p.filePath), ("urlPath", .str p.urlPath),
        ("title", .str p.title),
        ("date", match p.date with | some t => .num t | none => .null),
        ("description", .str p.description)]

/-! ### Artifact text -/

/-- One hexadecimal digit. -/
def hexDigit (n : Nat) : Char :=
  if n < 10 then Char.ofNat (48 + n) else Char.ofNat (87 + n)

/-- `JSON.stringify` escaping of one character inside a string literal. -/
def escapeChar (c : Char) : String :=
  if c = '"' then "\\\""
  else if c = '\\' then "\\\\"
  else if c = '\n' then "\\n"
  else if c = '\r' then "\\r"
  else if c = '\t' then "\\t"
  else if c = Char.ofNat 8 then "\\b"
  else if c = Char.ofNat 12 then "\\f"
  else if c.toNat < 32 then "\\u00" ++ ⟨[hexDigit (c.toNat / 16), hexDigit (c.toNat % 16)]⟩
  else ⟨[c]⟩

/-- A `JSON.stringify` string literal. -/
def quoteJson (s : String) : String :=
  "\"" ++ String.join (s.data.map escapeChar) ++ "\""

/-- Join with a separator. -/
def joinSep (sep : String) : List String → String
  | [] => ""
  | [x] => x
  | x :: xs => x ++ sep ++ joinSep sep xs

/-- `JSON.stringify(p, null, 2)` layout of one record nested one level deep
inside the array (object at indent 2, fields at indent 4). -/
def postJsonText (p : PostRecord) : String :=
  "  \x7b\n    \"filePath\": " ++ quoteJson p.filePath ++
    ",\n    \"urlPath\": " ++ quoteJson p.urlPath ++
    ",\n    \"title\": " ++ quoteJson p.title ++
    ",\n    \"date\": " ++
    (match p.date with | some t => quoteJson (isoString t) | none => "null") ++
    ",\n    \"description\": " ++ quoteJson p.description ++ "\n  \x7d"

/-- `JSON.stringify(posts, null, 2)` (line 101). -/
def postsJsonText (posts : List PostRecord) : String :=
  match posts with
  | [] => "[]"
  | _ => "[\n" ++ joinSep ",\n" (posts.map postJsonText) ++ "\n]"

/-- The full listing artifact written to `pages/posts/index.gen.js`
(lines 103-105): generation comment, then a single default-exported array. -/
def listingArtifact (posts : List PostRecord) : String :=
  "// automatically generated by build_post_index.js\n" ++
    "export default " ++ postsJsonText posts ++ ";\n"

/-! ## The RSS artifact -/

/-- Modelled from the spec: the site's fixed channel configuration (§4.3:
"Channel-level metadata (site title, link, description) is fixed
configuration, not derived from records"); `GenRss.bs.js` itself is not part
of the provided sources. -/
def siteBaseUrl : String := "https://example.org"

/-- Modelled from the spec: one RSS `<item>` per record, "each item carrying
at minimum a title, link (derived from `urlPath` plus the site's base URL),
publish date in RFC-822 form, and description" (§4.3). -/
def rssItem (p : PostRecord) : String :=
  "<item><title>" ++ p.title ++ "</title><link>" ++ siteBaseUrl ++ p.urlPath ++
    "</link><pubDate>" ++ rfc822String p.date ++ "</pubDate><description>" ++
    p.description ++ "</description></item>\n"

/-- Modelled from the spec: `Rss.draw(posts)` (line 108) - an RSS 2.0
document with fixed channel metadata and one item per record in the given
order; `GenRss.bs.js` is not among the provided sources, so this follows
§4.3 of the spec. -/
def rssDraw (posts : List PostRecord) : String :=
  "<?xml version=\"1.0\"?>\n<rss version=\"2.0\"><channel>" ++
    "<title>blog</title><link>" ++ siteBaseUrl ++
    "</link><description>blog</description>\n" ++
    String.join (posts.map rssItem) ++ "</channel></rss>\n"

/-! ## The whole run of `main` (lines 93-111) -/

/-- The extraction loop `postPaths.map(readPostMetadata)` (line 97) over the
already-compiled documents, threading the per-call wall-clock reading
`clock i` of `new Date()` at line 88; the first thrown error aborts. -/
def extractAll (parse : String → Option Int) (clock : Nat → Int) :
    Nat → List (String × Doc) → Except JsError (List PostRecord)
  | _, [] => .ok []
  | i, (p, doc) :: rest =>
    match readPostMetadata parse (clock i) p doc with
    | .error e => .error e
    | .ok r =>
      match extractAll parse clock (i + 1) rest with
      | .error e => .error e
      | .ok rs => .ok (r :: rs)

/-- One run of `main` after scanning and compiling: `docs` is the scanned
path/document list in scan order, `now` the `new Date()` of line 96, and
`clock` the wall clock observed by each extraction (which all happen after
`now` is captured).  Returns the two artifacts (listing text, RSS text). -/
def runMain (parse : String → Option Int) (docs : List (String × Doc))
    (now : Int) (clock : Nat → Int) : Except JsError (String × String) :=
  match extractAll parse clock 0 docs with
  | .error e => .error e
  | .ok records => .ok (listingArtifact (assemble records now), rssDraw (assemble records now))

/-- The two output files' contents. -/
structure OutFiles where
  listing : String
  rss : String
deriving DecidableEq

/-- Modelled from the spec: `fs.writeFileSync` fully replaces the target
file's contents (POSIX truncate-and-write; §6: "fully overwritten (not
appended)"); the previous contents do not influence the result. -/
def writeFileSync (_old new : String) : String :=
  new

/-- One run of `main` against a starting on-disk state of the two output
files: on success both files are overwritten, on a thrown error the run
aborts. -/
def runWithState (st : OutFiles) (parse : String → Option Int)
    (docs : List (String × Doc)) (now : Int) (clock : Nat → Int) :
    Except JsError OutFiles :=
  match runMain parse docs now clock with
  | .ok (l, r) => .ok { listing := writeFileSync st.listing l, rss := writeFileSync st.rss r }
  | .error e => .error e

/-! ## Helper views used to state the extraction-resolution claims -/

/-- The meta title when it is truthy in the JS sense (present, non-empty);
`none` when absent or empty. -/
def metaTitleTruthy (doc : Doc) : Option String :=
  match doc.meta with
  | some m =>
    match m.title with
    | some t => if t = "" then none else some t
    | none => none
  | none => none

/-- The meta description when it is truthy (present, non-empty). -/
def metaDescriptionTruthy (doc : Doc) : Option String :=
  match doc.meta with
  | some m =>
    match m.description with
    | some d => if d = "" then none else some d
    | none => none
  | none => none

/-- The text value of the first child of the first depth-1 heading block,
when both exist. -/
def firstHeadingText (doc : Doc) : Option String :=
  (doc.children.filter (fun x => x.type == "heading" && x.depth == 1)).head?.bind
    (fun b => b.children.head?.map Inline.value)

/-- The text value of the first child of the first paragraph block, when
both exist. -/
def firstParagraphText (doc : Doc) : Option String :=
  (doc.children.filter (fun x => x.type == "paragraph")).head?.bind
    (fun b => b.children.head?.map Inline.value)

/-! ## Concrete documents used by counterexamples and witnesses -/

/-- A document whose meta object is present and carries an (empty) `title`
field, while the tree has a depth-1 heading reading "H" and a paragraph
reading "P". -/
def docEmptyTitle : Doc :=
  { meta := some { title := some "", description := some "d", date := none }
    children := [{ type := "heading", depth := 1, children := [{ value := "H" }] },
                 { type := "paragraph", depth := 0, children := [{ value := "P" }] }] }

/-- A document whose meta object exists (truthy title and description) but
carries no `date` field. -/
def docNoDateField : Doc :=
  { meta := some { title := some "t", description := some "d", date := none }
    children := [] }

/-- A document that exports no meta object but has a heading and a
paragraph, so extraction succeeds structurally. -/
def docNoMeta : Doc :=
  { meta := none
    children := [{ type := "heading", depth := 1, children := [{ value := "H" }] },
                 { type := "paragraph", depth := 0, children := [{ value := "P" }] }] }

/-- A document whose meta object exists and whose `date` field is the
unparseable string "not-a-date". -/
def docBadDate : Doc :=
  { meta := some { title := some "t", description := some "d", date := some "not-a-date" }
    children := [] }

/-- A date parser behaving like `new Date(string)` on inputs relevant here:
it fails on "not-a-date" (Invalid Date) and on everything else too - the
claims that use it only need some fixed parser. -/
def parseNone (_ : String) : Option Int :=
  none

/-- A concrete record dated at the epoch. -/
def epochPost : PostRecord :=
  { filePath := "pages/posts/e.mdx", urlPath := "/posts/e", title := "t",
    date := some 0, description := "d" }

/-- A one-document corpus whose only document exports no meta object. -/
def docsOneNoMeta : List (String × Doc) :=
  [("pages/posts/x.mdx", docNoMeta)]

/-- The record `readPostMetadata` builds for `docNoMeta` when the extraction
wall clock reads 5. -/
def noMetaRecord : PostRecord :=
  { filePath := "pages/posts/x.mdx", urlPath := "/posts/x", title := "H",
    date := some 5, description := "P" }

/-- The record `readPostMetadata` builds for `docBadDate` (whose meta date
string does not parse). -/
def badDateRecord : PostRecord :=
  { filePath := "pages/posts/b.mdx", urlPath := "/posts/b", title := "t",
    date := none, description := "d" }

/-! # Helper lemmas

Shared facts about the sort model, the filter and the scanner, used by the
claim theorems below. -/

/-- `sortLe` is total: the comparator result and its negation cannot both be
positive. -/
theorem sortLe_total (a b : PostRecord) : sortLe a b = true ∨ sortLe b a = true := by
  unfold sortLe jsComparator
  rcases a.date with _ | x <;> rcases b.date with _ | y <;> simp <;> omega

/-- When the sort must put `p` strictly before `q` (comparator positive),
both dates are valid and `q`'s is strictly smaller than `p`'s. -/
theorem sortLe_eq_false (q p : PostRecord) (h : sortLe q p = false) :
    ∃ tp tq, p.date = some tp ∧ q.date = some tq ∧ tq < tp := by
  unfold sortLe jsComparator at h
  rcases hp : p.date with _ | tp <;> rcases hq : q.date with _ | tq <;>
    rw [hp, hq] at h <;> simp at h
  exact ⟨tp, tq, rfl, rfl, by omega⟩

/-- Records reachable (via `sortLe`) from a record dated `tq` are dated at
most `tq` - or are invalid-dated. -/
theorem sortLe_bound {q r : PostRecord} {tq : Int} (h : sortLe q r = true)
    (hq : q.date = some tq) : r.date = none ∨ ∃ tr, r.date = some tr ∧ tr ≤ tq := by
  unfold sortLe jsComparator at h
  rcases hr : r.date with _ | tr
  · exact Or.inl rfl
  · rw [hr, hq] at h
    simp at h
    exact Or.inr ⟨tr, rfl, by omega⟩

/-- `sortLe` chains across a failed comparison: if `q` must come strictly
after `p` but may come before `r`, then `p` may come before `r`. -/
theorem sortLe_chain {q p r : PostRecord} (hqp : sortLe q p = false)
    (hqr : sortLe q r = true) : sortLe p r = true := by
  obtain ⟨tp, tq, hp, hq, hlt⟩ := sortLe_eq_false q p hqp
  rcases sortLe_bound hqr hq with hr | ⟨tr, hr, hle⟩ <;>
    simp [sortLe, jsComparator, hp, hr]
  omega

/-- Membership in a stable insertion. -/
theorem mem_insertPost {a p : PostRecord} {l : List PostRecord} :
    a ∈ insertPost p l ↔ a = p ∨ a ∈ l := by
  induction l with
  | nil => simp [insertPost]
  | cons q rest ih =>
    simp only [insertPost]
    split
    · simp only [List.mem_cons, ih]
      tauto
    · simp only [List.mem_cons]

/-- Membership in the sorted result. -/
theorem mem_sortAux (l : List PostRecord) :
    ∀ (acc : List PostRecord) (a : PostRecord),
      a ∈ l.foldl (fun acc p => insertPost p acc) acc ↔ a ∈ acc ∨ a ∈ l := by
  induction l with
  | nil => simp
  | cons p rest ih =>
    intro acc a
    rw [List.foldl_cons, ih (insertPost p acc) a, mem_insertPost]
    simp
    tauto

/-- `sortPosts` has exactly the input's members. -/
theorem mem_sortPosts {a : PostRecord} {l : List PostRecord} :
    a ∈ sortPosts l ↔ a ∈ l := by
  rw [sortPosts, mem_sortAux]
  simp

/-- Inserting into a `sortLe`-sorted list keeps it sorted. -/
theorem pairwise_insertPost {p : PostRecord} {l : List PostRecord}
    (h : l.Pairwise (fun a b => sortLe a b = true)) :
    (insertPost p l).Pairwise (fun a b => sortLe a b = true) := by
  induction l with
  | nil => simp [insertPost]
  | cons q rest ih =>
    rw [List.pairwise_cons] at h
    obtain ⟨hq, hrest⟩ := h
    simp only [insertPost]
    split
    · rename_i hqp
      rw [List.pairwise_cons]
      refine ⟨?_, ih hrest⟩
      intro b hb
      rcases mem_insertPost.1 hb with rfl | hb
      · exact hqp
      · exact hq b hb
    · rename_i hqp
      rw [List.pairwise_cons]
      refine ⟨?_, List.pairwise_cons.2 ⟨hq, hrest⟩⟩
      intro b hb
      rcases List.mem_cons.1 hb with rfl | hb
      · rcases sortLe_total b p with hbp | hpb
        · exact absurd hbp (by simpa using hqp)
        · exact hpb
      · exact sortLe_chain (Bool.not_eq_true _ ▸ (by simpa using hqp)) (hq b hb)

/-- The accumulated sort is sorted. -/
theorem pairwise_sortAux (l : List PostRecord) :
    ∀ acc : List PostRecord, acc.Pairwise (fun a b => sortLe a b = true) →
      (l.foldl (fun acc p => insertPost p acc) acc).Pairwise
        (fun a b => sortLe a b = true) := by
  induction l with
  | nil => intro acc h; simpa using h
  | cons p rest ih =>
    intro acc h
    rw [List.foldl_cons]
    exact ih _ (pairwise_insertPost h)

/-- `sortPosts` output is sorted with respect to the comparator. -/
theorem pairwise_sortPosts (l : List PostRecord) :
    (sortPosts l).Pairwise (fun a b => sortLe a b = true) :=
  pairwise_sortAux l [] (by simp)

/-- Stable insertion commutes with filtering on a fixed date: the inserted
record lands after every record of that date already present, and no record
of that date sits below the insertion point of a sorted list. -/
theorem filter_insertPost (d : Option Int) (p : PostRecord) (l : List PostRecord)
    (h : l.Pairwise (fun a b => sortLe a b = true)) :
    (insertPost p l).filter (fun q => decide (q.date = d)) =
      if p.date = d then l.filter (fun q => decide (q.date = d)) ++ [p]
      else l.filter (fun q => decide (q.date = d)) := by
  induction l with
  | nil =>
    simp only [insertPost, List.filter]
    by_cases hp : p.date = d <;> simp [hp]
  | cons q rest ih =>
    rw [List.pairwise_cons] at h
    obtain ⟨hq, hrest⟩ := h
    simp only [insertPost]
    split
    · rw [List.filter_cons, List.filter_cons, ih hrest]
      by_cases hp : p.date = d <;> by_cases hqd : q.date = d <;>
        simp [hp, hqd]
    · rename_i hqp
      obtain ⟨tp, tq, hpd, hqd, hlt⟩ := sortLe_eq_false q p (by simpa using hqp)
      have hnone : ∀ r ∈ q :: rest, ¬ (r.date = some tp) := by
        intro r hr
        rcases List.mem_cons.1 hr with rfl | hr
        · rw [hqd]
          intro hc
          injection hc with hc
          omega
        · rcases sortLe_bound (hq r hr) hqd with hn | ⟨tr, htr, hle⟩
          · rw [hn]
            exact fun hc => Option.noConfusion hc
          · rw [htr]
            intro hc
            injection hc with hc
            omega
      by_cases hp : p.date = d
      · have hd : d = some tp := by rw [← hp, hpd]
        subst hd
        have hnil : (q :: rest).filter (fun r => decide (r.date = some tp)) = [] := by
          rw [List.filter_eq_nil_iff]
          intro r hr
          simpa using hnone r hr
        rw [if_pos hp, List.filter_cons, hnil]
        simp [hpd]
      · rw [if_neg hp, List.filter_cons]
        simp [hp]

/-- Filtering on a fixed date commutes with the accumulated sort. -/
theorem filter_sortAux (d : Option Int) (l : List PostRecord) :
    ∀ acc : List PostRecord, acc.Pairwise (fun a b => sortLe a b = true) →
      (l.foldl (fun acc p => insertPost p acc) acc).filter
          (fun q => decide (q.date = d)) =
        acc.filter (fun q => decide (q.date = d)) ++
          l.filter (fun q => decide (q.date = d)) := by
  induction l with
  | nil => intro acc _; simp
  | cons p rest ih =>
    intro acc h
    rw [List.foldl_cons, ih _ (pairwise_insertPost h), filter_insertPost d p acc h,
      List.filter_cons]
    by_cases hp : p.date = d <;> simp [hp]

/-- Stability of the date sort: records of any one date keep exactly their
input order (the sort only rearranges records of distinct dates). -/
theorem filter_sortPosts (d : Option Int) (l : List PostRecord) :
    (sortPosts l).filter (fun q => decide (q.date = d)) =
      l.filter (fun q => decide (q.date = d)) := by
  rw [sortPosts, filter_sortAux d l [] (by simp)]
  simp

/-- Membership in the assembled output. -/
theorem mem_assemble {p : PostRecord} {posts : List PostRecord} {now : Int} :
    p ∈ assemble posts now ↔ p ∈ posts ∧ jsDateLe p.date (some now) = true := by
  rw [assemble, mem_sortPosts, filterPosts, List.mem_filter]

/-- Every assembled record carries a valid date at or before `now`. -/
theorem assemble_date_valid {p : PostRecord} {posts : List PostRecord} {now : Int}
    (h : p ∈ assemble posts now) : ∃ t, p.date = some t ∧ t ≤ now := by
  obtain ⟨-, hle⟩ := mem_assemble.1 h
  unfold jsDateLe at hle
  rcases hp : p.date with _ | t
  · rw [hp] at hle
    cases hle
  · rw [hp] at hle
    simp at hle
    exact ⟨t, rfl, hle⟩

/-- The assembled output is pairwise non-increasing in date under the JS
date comparison. -/
theorem pairwise_assemble {posts : List PostRecord} {now : Int} :
    (assemble posts now).Pairwise (fun a b => jsDateLe b.date a.date = true) := by
  have hp := pairwise_sortPosts (filterPosts posts now)
  rw [← assemble] at hp
  refine hp.imp_of_mem ?_
  intro a b ha hb hle
  obtain ⟨ta, hda, -⟩ := assemble_date_valid ha
  obtain ⟨tb, hdb, -⟩ := assemble_date_valid hb
  unfold sortLe jsComparator at hle
  rw [hda, hdb] at hle
  simp at hle
  simp [jsDateLe, hda, hdb]
  omega

/-- JS string comparison is total. -/
theorem charListLe_total : ∀ a b : List Char, charListLe a b = true ∨ charListLe b a = true
  | [], _ => Or.inl rfl
  | _ :: _, [] => Or.inr rfl
  | a :: as, b :: bs => by
    rcases Nat.lt_trichotomy a.toNat b.toNat with h | h | h
    · left
      simp [charListLe, h]
    · rcases charListLe_total as bs with ih | ih
      · left
        simp [charListLe, h, ih]
      · right
        simp [charListLe, h.symm, ih]
    · right
      simp [charListLe, h]

/-- JS string comparison is transitive. -/
theorem charListLe_trans : ∀ a b c : List Char,
    charListLe a b = true → charListLe b c = true → charListLe a c = true
  | [], _, _ => by intro _ _; rfl
  | _ :: _, [], _ => by intro h _; simp [charListLe] at h
  | _ :: _, _ :: _, [] => by intro _ h; simp [charListLe] at h
  | a :: as, b :: bs, c :: cs => by
    intro hab hbc
    simp only [charListLe] at hab hbc ⊢
    split at hab
    · rename_i h1
      split
      · rfl
      · split
        · rename_i h2 h3
          split at hbc
          · omega
          · split at hbc
            · omega
            · cases hbc
        · rename_i h2 h3
          split at hbc
          · omega
          · split at hbc
            · omega
            · cases hbc
    · split at hab
      · rename_i h1 h2
        split at hbc
        · rename_i h3
          split
          · rfl
          · omega
        · split at hbc
          · rename_i h3 h4
            split
            · rfl
            · split
              · exact charListLe_trans as bs cs hab hbc
              · omega
          · cases hbc
      · cases hab

/-- `filenames.sort()` leaves each directory listing in non-decreasing JS
string order of names. -/
theorem sortEntries_sorted (es : List FsEntry) :
    (sortEntries es).Pairwise (fun a b => strLe (entryName a) (entryName b) = true) := by
  refine List.sorted_mergeSort ?_ ?_ es
  · intro a b c hab hbc
    exact charListLe_trans _ _ _ hab hbc
  · intro a b
    rcases charListLe_total (entryName a).data (entryName b).data with h | h <;>
      simp [strLe, h]

/-- The scanner output is exactly the depth-first sorted file enumeration
restricted to paths carrying the extension suffix. -/
theorem scanEntries_eq_filter (ext : String) (p : String) (es : List FsEntry) :
    scanEntries ext p es = (filesDepthFirst p es).filter (fun s => strEndsWith s ext) := by
  induction p, es using scanEntries.induct ext with
  | case1 p => simp [scanEntries, filesDepthFirst]
  | case2 p n es ih =>
    rw [scanEntries, filesDepthFirst, List.filter_cons, ih]
    split <;> rename_i h <;> simp [h]
  | case3 p n sub es ih1 ih2 =>
    rw [scanEntries, filesDepthFirst, List.filter_append, ih1, ih2]

/-- A successful extraction's record is determined: title and description
from the two resolutions, date from `dateOf`, paths from the input path. -/
theorem readPostMetadata_ok {parse : String → Option Int} {wall : Int}
    {p : String} {doc : Doc} {r : PostRecord}
    (h : readPostMetadata parse wall p doc = .ok r) :
    extractTitle doc = .ok r.title ∧ extractDescription doc = .ok r.description ∧
      r = { filePath := p, urlPath := urlPath p, title := r.title,
            date := dateOf parse doc wall, description := r.description } := by
  unfold readPostMetadata at h
  cases ht : extractTitle doc with
  | error e => rw [ht] at h; cases h
  | ok t =>
    rw [ht] at h
    cases hd : extractDescription doc with
    | error e => rw [hd] at h; cases h
    | ok d =>
      rw [hd] at h
      injection h with h
      subst h
      refine ⟨?_, ?_, rfl⟩
      · simpa using ht
      · simpa using hd

/-- Extraction succeeds exactly when both resolutions do. -/
theorem readPostMetadata_ok_of {parse : String → Option Int} {wall : Int}
    {p : String} {doc : Doc} {t d : String}
    (ht : extractTitle doc = .ok t) (hd : extractDescription doc = .ok d) :
    readPostMetadata parse wall p doc =
      .ok { filePath := p, urlPath := urlPath p, title := t,
            date := dateOf parse doc wall, description := d } := by
  unfold readPostMetadata
  rw [ht, hd]

/-- The structural title fallback succeeds exactly on the usable-heading
view. -/
theorem titleFromAst_eq (doc : Doc) :
    (∀ t, firstHeadingText doc = some t → titleFromAst doc = .ok t) ∧
      (firstHeadingText doc = none → titleFromAst doc = .error .typeError) := by
  cases hf : (doc.children.filter (fun x => x.type == "heading" && x.depth == 1)) with
  | nil =>
    constructor
    · intro t ht
      simp [firstHeadingText, hf] at ht
    · intro _
      simp [titleFromAst, hf]
  | cons b bs =>
    cases hc : b.children with
    | nil =>
      constructor
      · intro t ht
        simp [firstHeadingText, hf, hc] at ht
      · intro _
        simp [titleFromAst, hf, hc]
    | cons i is =>
      constructor
      · intro t ht
        simp [firstHeadingText, hf, hc] at ht
        simp [titleFromAst, hf, hc, ht]
      · intro hn
        simp [firstHeadingText, hf, hc] at hn

/-- The structural description fallback succeeds exactly on the
usable-paragraph view. -/
theorem descriptionFromAst_eq (doc : Doc) :
    (∀ d, firstParagraphText doc = some d → descriptionFromAst doc = .ok d) ∧
      (firstParagraphText doc = none → descriptionFromAst doc = .error .typeError) := by
  cases hf : (doc.children.filter (fun x => x.type == "paragraph")) with
  | nil =>
    constructor
    · intro d hd
      simp [firstParagraphText, hf] at hd
    · intro _
      simp [descriptionFromAst, hf]
  | cons b bs =>
    cases hc : b.children with
    | nil =>
      constructor
      · intro d hd
        simp [firstParagraphText, hf, hc] at hd
      · intro _
        simp [descriptionFromAst, hf, hc]
    | cons i is =>
      constructor
      · intro d hd
        simp [firstParagraphText, hf, hc] at hd
        simp [descriptionFromAst, hf, hc, hd]
      · intro hn
        simp [firstParagraphText, hf, hc] at hn

/-- Title resolution characterized through the helper views: a truthy meta
title wins; otherwise the first usable depth-1 heading text; otherwise a
thrown `TypeError`. -/
theorem extractTitle_cases (doc : Doc) :
    (∀ t, metaTitleTruthy doc = some t → extractTitle doc = .ok t) ∧
      (metaTitleTruthy doc = none → ∀ t, firstHeadingText doc = some t →
        extractTitle doc = .ok t) ∧
      (metaTitleTruthy doc = none → firstHeadingText doc = none →
        extractTitle doc = .error .typeError) := by
  cases hm : doc.meta with
  | none =>
    refine ⟨?_, ?_, ?_⟩
    · intro t ht
      simp [metaTitleTruthy, hm] at ht
    · intro _ t ht
      simp only [extractTitle, hm]
      exact (titleFromAst_eq doc).1 t ht
    · intro _ hn
      simp only [extractTitle, hm]
      exact (titleFromAst_eq doc).2 hn
  | some m =>
    cases hmt : m.title with
    | none =>
      refine ⟨?_, ?_, ?_⟩
      · intro t ht
        simp [metaTitleTruthy, hm, hmt] at ht
      · intro _ t ht
        simp only [extractTitle, hm, hmt]
        exact (titleFromAst_eq doc).1 t ht
      · intro _ hn
        simp only [extractTitle, hm, hmt]
        exact (titleFromAst_eq doc).2 hn
    | some t2 =>
      by_cases h2 : t2 = ""
      · refine ⟨?_, ?_, ?_⟩
        · intro t ht
          simp [metaTitleTruthy, hm, hmt, h2] at ht
        · intro _ t ht
          simp only [extractTitle, hm, hmt, h2, if_pos]
          exact (titleFromAst_eq doc).1 t ht
        · intro _ hn
          simp only [extractTitle, hm, hmt, h2, if_pos]
          exact (titleFromAst_eq doc).2 hn
      · refine ⟨?_, ?_, ?_⟩
        · intro t ht
          simp [metaTitleTruthy, hm, hmt, h2] at ht
          subst ht
          simp [extractTitle, hm, hmt, h2]
        · intro hn
          simp [metaTitleTruthy, hm, hmt, h2] at hn
        · intro hn
          simp [metaTitleTruthy, hm, hmt, h2] at hn

/-- Description resolution, mirroring the title resolution. -/
theorem extractDescription_cases (doc : Doc) :
    (∀ d, metaDescriptionTruthy doc = some d → extractDescription doc = .ok d) ∧
      (metaDescriptionTruthy doc = none → ∀ d, firstParagraphText doc = some d →
        extractDescription doc = .ok d) ∧
      (metaDescriptionTruthy doc = none → firstParagraphText doc = none →
        extractDescription doc = .error .typeError) := by
  cases hm : doc.meta with
  | none =>
    refine ⟨?_, ?_, ?_⟩
    · intro d hd
      simp [metaDescriptionTruthy, hm] at hd
    · intro _ d hd
      simp only [extractDescription, hm]
      exact (descriptionFromAst_eq doc).1 d hd
    · intro _ hn
      simp only [extractDescription, hm]
      exact (descriptionFromAst_eq doc).2 hn
  | some m =>
    cases hmd : m.description with
    | none =>
      refine ⟨?_, ?_, ?_⟩
      · intro d hd
        simp [metaDescriptionTruthy, hm, hmd] at hd
      · intro _ d hd
        simp only [extractDescription, hm, hmd]
        exact (descriptionFromAst_eq doc).1 d hd
      · intro _ hn
        simp only [extractDescription, hm, hmd]
        exact (descriptionFromAst_eq doc).2 hn
    | some d2 =>
      by_cases h2 : d2 = ""
      · refine ⟨?_, ?_, ?_⟩
        · intro d hd
          simp [metaDescriptionTruthy, hm, hmd, h2] at hd
        · intro _ d hd
          simp only [extractDescription, hm, hmd, h2, if_pos]
          exact (descriptionFromAst_eq doc).1 d hd
        · intro _ hn
          simp only [extractDescription, hm, hmd, h2, if_pos]
          exact (descriptionFromAst_eq doc).2 hn
      · refine ⟨?_, ?_, ?_⟩
        · intro d hd
          simp [metaDescriptionTruthy, hm, hmd, h2] at hd
          subst hd
          simp [extractDescription, hm, hmd, h2]
        · intro hn
          simp [metaDescriptionTruthy, hm, hmd, h2] at hn
        · intro hn
          simp [metaDescriptionTruthy, hm, hmd, h2] at hn

/-! # Claim theorems -/

/-- C1: for every input record list and every `now`, the assembled output
sequence is sorted non-increasing by date, and records of any one date
appear in exactly their relative order in the input sequence (stability:
the output's date-`d` subsequence equals the input's date-`d` subsequence
restricted to the filter). -/
theorem assemble_sorted_and_stable (posts : List PostRecord) (now : Int) :
    (assemble posts now).Pairwise (fun a b => jsDateLe b.date a.date = true) ∧
      ∀ d : Option Int,
        (assemble posts now).filter (fun q => decide (q.date = d)) =
          posts.filter (fun q => decide (q.date = d) && jsDateLe q.date (some now)) := by
  refine ⟨pairwise_assemble, ?_⟩
  intro d
  rw [assemble, filter_sortPosts, filterPosts, List.filter_filter]

/-- C2: the filtered output contains exactly the input records whose date is
at most `now` under the JS date comparison; the boundary is inclusive (a
date equal to `now` passes), and no record dated strictly after `now` - nor
any invalid-dated record - appears. -/
theorem assemble_members_iff (posts : List PostRecord) (now : Int) :
    (∀ p : PostRecord,
        p ∈ assemble posts now ↔ p ∈ posts ∧ jsDateLe p.date (some now) = true) ∧
      jsDateLe (some now) (some now) = true := by
  refine ⟨fun p => mem_assemble, by simp [jsDateLe]⟩

/-- C3 counterexample: a meta object that exists and has a `title` field
(the empty string) is not used - extraction falls back to the heading, so
"resolves to `compiledModule.meta.title` whenever the meta object exists and
has a title field" fails: the field is present yet the result is the heading
text "H", not the field's value "". -/
theorem title_field_present_not_used :
    docEmptyTitle.meta = some { title := some "", description := some "d", date := none } ∧
      extractTitle docEmptyTitle = .ok "H" ∧
      (Except.ok "H" : Except JsError String) ≠ .ok "" := by
  refine ⟨rfl, by decide, by decide⟩

/-- C3 (amended): title resolves to `meta.title` whenever the meta object
exists and has a truthy (non-empty) `title` field, else to the text of the
first child of the first depth-1 heading; description likewise with a truthy
`meta.description`, else the first child of the first paragraph; when the
fallback is needed and no usable heading/paragraph exists, extraction throws
a `TypeError` which `readPostMetadata` propagates (no record, no silent
fallback). -/
theorem extraction_resolution (doc : Doc) :
    (∀ t, metaTitleTruthy doc = some t → extractTitle doc = .ok t) ∧
      (metaTitleTruthy doc = none → ∀ t, firstHeadingText doc = some t →
        extractTitle doc = .ok t) ∧
      (metaTitleTruthy doc = none → firstHeadingText doc = none →
        extractTitle doc = .error .typeError) ∧
      (∀ d, metaDescriptionTruthy doc = some d → extractDescription doc = .ok d) ∧
      (metaDescriptionTruthy doc = none → ∀ d, firstParagraphText doc = some d →
        extractDescription doc = .ok d) ∧
      (metaDescriptionTruthy doc = none → firstParagraphText doc = none →
        extractDescription doc = .error .typeError) ∧
      (∀ parse wall p e, extractTitle doc = .error e →
        readPostMetadata parse wall p doc = .error e) ∧
      (∀ parse wall p t e, extractTitle doc = .ok t →
        extractDescription doc = .error e →
        readPostMetadata parse wall p doc = .error e) := by
  obtain ⟨t1, t2, t3⟩ := extractTitle_cases doc
  obtain ⟨d1, d2, d3⟩ := extractDescription_cases doc
  refine ⟨t1, t2, t3, d1, d2, d3, ?_, ?_⟩
  · intro parse wall p e he
    unfold readPostMetadata
    rw [he]
  · intro parse wall p t e ht he
    unfold readPostMetadata
    rw [ht, he]

/-- Witness for the amended C3 at concrete documents: the empty-title
document falls back to its heading, its meta description is used, and a
document with neither meta nor blocks throws. -/
theorem extraction_resolution_witness :
    extractTitle docEmptyTitle = .ok "H" ∧
      extractDescription docEmptyTitle = .ok "d" ∧
      extractTitle ⟨none, []⟩ = .error .typeError ∧
      readPostMetadata parseNone 0 "p" ⟨none, []⟩ = .error .typeError := by
  refine ⟨(extraction_resolution docEmptyTitle).2.1 (by decide) "H" (by decide),
    (extraction_resolution docEmptyTitle).2.2.2.1 "d" (by decide),
    (extraction_resolution ⟨none, []⟩).2.2.1 (by decide) (by decide),
    (extraction_resolution ⟨none, []⟩).2.2.2.2.2.2.1 parseNone 0 "p" .typeError
      ((extraction_resolution ⟨none, []⟩).2.2.1 (by decide) (by decide))⟩

/-- C4 counterexample: for a document whose meta object exists but carries
no `date` field, the record's date is the Invalid Date sentinel, not the
wall-clock time (0 here) the claim prescribes - `new Date(undefined)` is
Invalid Date and a `Date` object is truthy, so `|| new Date()` never runs. -/
theorem meta_without_date_not_wallclock :
    docNoDateField.meta = some { title := some "t", description := some "d", date := none } ∧
      dateOf parseNone docNoDateField 0 = none ∧
      (none : Option Int) ≠ some 0 := by
  refine ⟨rfl, rfl, by decide⟩

/-- C4 (amended): the record's date is the parse of `meta.date` when the
meta object exists and carries a date field, the Invalid Date sentinel when
the meta object exists without a date field, and the extraction wall-clock
time only when there is no meta object at all. -/
theorem date_resolution (parse : String → Option Int) (doc : Doc) (wall : Int) :
    (∀ m s, doc.meta = some m → m.date = some s → dateOf parse doc wall = parse s) ∧
      (∀ m, doc.meta = some m → m.date = none → dateOf parse doc wall = none) ∧
      (doc.meta = none → dateOf parse doc wall = some wall) := by
  refine ⟨?_, ?_, ?_⟩
  · intro m s hm hs
    simp [dateOf, hm, hs]
  · intro m hm hs
    simp [dateOf, hm, hs]
  · intro hm
    simp [dateOf, hm]

/-- Witness for the amended C4 at concrete documents. -/
theorem date_resolution_witness :
    dateOf parseNone docNoDateField 0 = none ∧
      dateOf parseNone docNoMeta 7 = some 7 ∧
      dateOf parseNone docBadDate 0 = parseNone "not-a-date" := by
  refine ⟨(date_resolution parseNone docNoDateField 0).2.1
      { title := some "t", description := some "d", date := none } rfl rfl,
    (date_resolution parseNone docNoMeta 7).2.2 rfl,
    (date_resolution parseNone docBadDate 0).1
      { title := some "t", description := some "d", date := some "not-a-date" }
      "not-a-date" rfl rfl⟩

/-- C5: the `urlPath` transform is a pure function built from a single
(non-global) first-backslash replacement, stripping of the leading `pages`
root, and stripping of a trailing `.md`/`.mdx`; only the first backslash is
replaced (any backslash after the first survives), and it maps
`pages/posts/a/b.mdx` to `/posts/a/b`. -/
theorem urlPath_transform :
    urlPath "pages/posts/a/b.mdx" = "/posts/a/b" ∧
      urlPath "pages\\a\\b.md" = "/a\\b" ∧
      (∀ l r : List Char, '\\' ∉ l →
        replaceFirstBackslash (l ++ '\\' :: r) = l ++ '/' :: r) ∧
      (∀ s : String,
        urlPath s = ⟨dropMdExt (stripPagesRoot (replaceFirstBackslash s.data))⟩) := by
  refine ⟨by decide, by decide, ?_, fun s => rfl⟩
  intro l r h
  induction l with
  | nil => simp [replaceFirstBackslash]
  | cons c cs ih =>
    have hc : ¬ c = '\\' := fun hh => h (by simp [hh])
    have hmem : '\\' ∉ cs := fun hh => h (List.mem_cons_of_mem _ hh)
    simp only [List.cons_append, replaceFirstBackslash, if_neg hc]
    exact congrArg (c :: ·) (ih hmem)

/-- Witness for C5's general backslash clause at a concrete split. -/
theorem urlPath_transform_witness :
    replaceFirstBackslash (['a'] ++ '\\' :: ['b', '\\', 'c']) =
      ['a'] ++ '/' :: ['b', '\\', 'c'] :=
  urlPath_transform.2.2.1 ['a'] ['b', '\\', 'c'] (by decide)

/-- C6 counterexample: serializing the epoch-dated record and re-reading it
as data does not give back the record field-for-field - the date field goes
in as the timestamp 0 but comes back as the ISO string
"1970-01-01T00:00:00.000Z"; the serialized object differs from the record
viewed directly as data. -/
theorem listing_roundtrip_changes_date :
    epochPost.date = some 0 ∧
      (parsePost (serializePost epochPost)).map ParsedPost.date =
        some (Json.str "1970-01-01T00:00:00.000Z") ∧
      Json.str "1970-01-01T00:00:00.000Z" ≠ Json.num 0 ∧
      serializePost epochPost ≠ recordAsData epochPost := by
  refine ⟨rfl, rfl, ?_, ?_⟩
  · intro h
    cases h
  · intro h
    simp [serializePost, recordAsData, epochPost, dateToJson] at h

/-- C6 (amended): serializing any record list into the listing data and
re-parsing it as data yields records whose `filePath`, `urlPath`, `title`
and `description` equal the input's field-for-field, while `date` comes back
as its serialized encoding - the ISO-8601 string of the timestamp, or
`null` for an Invalid Date - rather than the timestamp value itself. -/
theorem listing_roundtrip (posts : List PostRecord) :
    parseListing (listingJson posts) =
      some (posts.map (fun p =>
        { filePath := p.filePath, urlPath := p.urlPath, title := p.title,
          date := dateToJson p.date, description := p.description })) := by
  have hone : ∀ p : PostRecord, parsePost (serializePost p) =
      some { filePath := p.filePath, urlPath := p.urlPath, title := p.title,
             date := dateToJson p.date, description := p.description } := by
    intro p
    simp [parsePost, serializePost, jsonField]
  simp only [parseListing, listingJson]
  induction posts with
  | nil => rfl
  | cons p ps ih =>
    simp only [List.map_cons, List.mapM_cons, hone p, Option.bind, ih]
    rfl

/-- C7: `scanDir` returns the fully materialized depth-first enumeration of
the tree (each directory's entries visited in sorted name order) restricted
to exactly the paths ending in the extension (exact, case-sensitive suffix
match); directory listings are sorted lexicographically, and a rescan of an
unchanged tree is identical. -/
theorem scanDir_spec (root : String) (entries : List FsEntry) (ext : String) :
    scanDir root entries ext =
      (filesDepthFirst root (sortEntries entries)).filter (fun s => strEndsWith s ext) ∧
      (∀ es : List FsEntry,
        (sortEntries es).Pairwise (fun a b => strLe (entryName a) (entryName b) = true)) ∧
      scanDir root entries ext = scanDir root entries ext :=
  ⟨scanEntries_eq_filter ext root (sortEntries entries), sortEntries_sorted, rfl⟩

/-- C8 counterexample: two runs over the same single-document corpus (the
document exports no meta object) with the same `now` (0) but different
extraction wall-clock readings (0 versus 1) produce different artifacts:
the first run publishes the post (dated at `now`), the second drops it, so
"identical input documents and a fixed now" alone do not determine the
output. -/
theorem pipeline_not_determined_by_now :
    runMain parseNone docsOneNoMeta 0 (fun _ => 0) ≠
      runMain parseNone docsOneNoMeta 0 (fun _ => 1) := by
  decide

/-- C8 (amended): given identical input documents, a fixed `now` and fixed
extraction wall-clock readings, a run is a pure function - the two written
artifacts are byte-identical across runs and independent of the output
files' previous contents, which are fully overwritten (never appended). -/
theorem pipeline_deterministic_overwrite (parse : String → Option Int)
    (docs : List (String × Doc)) (now : Int) (clock : Nat → Int)
    (st1 st2 : OutFiles) :
    runWithState st1 parse docs now clock = runWithState st2 parse docs now clock ∧
      (∀ l r : String, runMain parse docs now clock = .ok (l, r) →
        runWithState st1 parse docs now clock = .ok { listing := l, rss := r }) := by
  constructor
  · unfold runWithState
    cases runMain parse docs now clock with
    | error e => rfl
    | ok a => rfl
  · intro l r h
    unfold runWithState
    rw [h]
    rfl

/-- Witness for the amended C8: the empty corpus runs from two different
initial file states to the same final state, the two artifacts. -/
theorem pipeline_deterministic_overwrite_witness :
    runWithState ⟨"stale listing", "stale rss"⟩ parseNone [] 0 (fun _ => 0) =
      runWithState ⟨"", ""⟩ parseNone [] 0 (fun _ => 0) ∧
      runWithState ⟨"stale listing", "stale rss"⟩ parseNone [] 0 (fun _ => 0) =
        .ok { listing := listingArtifact [], rss := rssDraw [] } :=
  ⟨(pipeline_deterministic_overwrite parseNone [] 0 (fun _ => 0)
      ⟨"stale listing", "stale rss"⟩ ⟨"", ""⟩).1,
   (pipeline_deterministic_overwrite parseNone [] 0 (fun _ => 0)
      ⟨"stale listing", "stale rss"⟩ ⟨"", ""⟩).2 (listingArtifact []) (rssDraw []) rfl⟩

/-- C9: a document without a meta object gets the extraction wall-clock
reading as its date (the `now` of line 96 is captured before the extraction
loop of line 97 runs), so whenever the extraction clock reads strictly later
than `now`, the record fails `date <= now` and is excluded from the
assembled output. -/
theorem no_meta_excluded_when_clock_after_now (parse : String → Option Int)
    (wall : Int) (p : String) (doc : Doc) (r : PostRecord) (now : Int)
    (hm : doc.meta = none) (h : readPostMetadata parse wall p doc = .ok r) :
    r.date = some wall ∧
      (now < wall → jsDateLe r.date (some now) = false ∧
        ∀ posts : List PostRecord, r ∉ assemble posts now) := by
  obtain ⟨-, -, hr⟩ := readPostMetadata_ok h
  have hd : r.date = some wall := by
    rw [hr]
    simp [dateOf, hm]
  refine ⟨hd, fun hlt => ⟨?_, ?_⟩⟩
  · rw [hd]
    simp [jsDateLe]
    omega
  · intro posts hmem
    have hle := (mem_assemble.1 hmem).2
    rw [hd] at hle
    simp [jsDateLe] at hle
    omega

/-- Witness for C9: the no-meta document extracted at clock reading 5 with
`now` 3 yields the wall-clock-dated record, which the pipeline excludes. -/
theorem no_meta_excluded_witness :
    readPostMetadata parseNone 5 "pages/posts/x.mdx" docNoMeta = .ok noMetaRecord ∧
      noMetaRecord.date = some 5 ∧
      noMetaRecord ∉ assemble [noMetaRecord] 3 := by
  have happ := no_meta_excluded_when_clock_after_now parseNone 5 "pages/posts/x.mdx"
    docNoMeta noMetaRecord 3 rfl (by decide)
  exact ⟨by decide, happ.1, (happ.2 (by decide)).2 [noMetaRecord]⟩

/-- C10: when the meta object exists but its date string does not parse,
date construction does not throw - the record is built (given resolvable
title and description) with the Invalid Date sentinel, for which
`date <= now` is false, so the record is silently excluded from the
assembled output for every `now`. -/
theorem invalid_date_silently_excluded (parse : String → Option Int)
    (wall : Int) (p : String) (doc : Doc) (m : Meta) (s : String)
    (t d : String) (now : Int)
    (hm : doc.meta = some m) (hs : m.date = some s) (hp : parse s = none)
    (ht : extractTitle doc = .ok t) (hd : extractDescription doc = .ok d) :
    readPostMetadata parse wall p doc =
        .ok { filePath := p, urlPath := urlPath p, title := t,
              date := none, description := d } ∧
      jsDateLe none (some now) = false ∧
      ∀ posts : List PostRecord,
        { filePath := p, urlPath := urlPath p, title := t,
          date := none, description := d : PostRecord } ∉ assemble posts now := by
  have hdate : dateOf parse doc wall = none := by
    simp [dateOf, hm, hs, hp]
  refine ⟨?_, rfl, ?_⟩
  · have h0 := @readPostMetadata_ok_of parse wall p doc t d ht hd
    rw [h0, hdate]
  · intro posts hmem
    have hle := (mem_assemble.1 hmem).2
    simp [jsDateLe] at hle

/-- Witness for C10: the bad-date document yields a record with the Invalid
Date sentinel, excluded from the assembled output at `now` = 0. -/
theorem invalid_date_silently_excluded_witness :
    readPostMetadata parseNone 0 "pages/posts/b.mdx" docBadDate = .ok badDateRecord ∧
      badDateRecord ∉ assemble [badDateRecord] 0 := by
  have happ := invalid_date_silently_excluded parseNone 0 "pages/posts/b.mdx" docBadDate
    { title := some "t", description := some "d", date := some "not-a-date" }
    "not-a-date" "t" "d" 0 rfl rfl rfl (by decide) (by decide)
  exact ⟨by decide, happ.2.2 [badDateRecord]⟩
